import Mathlib

/-!
Shallow embedding of the rlox expression compiler and virtual machine
(src/code.rs, src/lib.rs, src/vm.rs, src/scanner.rs, src/parser.rs).

Modelling conventions, used consistently below:
* Rust `u8` / `u16` / `u32` / `usize` values are Lean `Nat`s; wherever the
  source relies on a width (casts, `to_be_bytes`, `leading_zeros`) the
  truncation or width is written out explicitly.
* The numeric payload of `Value::Number(f64)` is modelled as `Rat`.
  IEEE-754 specific behaviour (NaN, signed infinities, rounding) is out of
  scope of the embedding; no theorem below depends on a float-specific fact.
* `Rc<RefCell<Object>>` handles are modelled by the `Object` they point to:
  the only `PartialEq` the VM ever applies to handles compares the pointed-to
  payloads, and the heap registry of `Weak` back-references is modelled as the
  list of registered objects (liveness/expiry is not modelled).
* A Rust `Vec` used as a stack (push/pop at the end) is modelled as a list
  with its head as the stack top.
* Rust panics (failed `assert!`, out-of-bounds `Vec` indexing, `unwrap` on
  `Err`, `unreachable!`) are modelled by `Option.none` results.
* Source-level loops and recursion are given explicit fuel so that every
  definition is structural and kernel-evaluable; functions return `none`
  when the fuel runs out, and canonical entry points pass a fuel that is an
  upper bound on the number of iterations the source loop can make.
-/

namespace RLox

/-- A single quote character, used when rendering error messages. -/
def sq : String := String.singleton (Char.ofNat 39)

/-! ## src/code.rs : opcodes, instructions, chunks -/

/-- `enum Op` from src/code.rs, `#[repr(u8)]`, discriminants 0..15 in
declaration order; `Unknown` is the `num_enum` default. -/
inductive Op where
  | Nil
  | True
  | False
  | Return
  | Not
  | Negate
  | Equal
  | Greater
  | Less
  | Add
  | Subtract
  | Multiply
  | Divide
  | Constant
  | Extend
  | Unknown
deriving DecidableEq, Repr

/-- The `u8` discriminant of an opcode (`op as u8`). -/
def opToNat : Op → Nat
  | .Nil => 0
  | .True => 1
  | .False => 2
  | .Return => 3
  | .Not => 4
  | .Negate => 5
  | .Equal => 6
  | .Greater => 7
  | .Less => 8
  | .Add => 9
  | .Subtract => 10
  | .Multiply => 11
  | .Divide => 12
  | .Constant => 13
  | .Extend => 14
  | .Unknown => 15

/-- `Op::from_primitive` (derived `FromPrimitive` with `Unknown` as the
`num_enum` default for unrecognized raw bytes). -/
def opFromNat : Nat → Op
  | 0 => .Nil
  | 1 => .True
  | 2 => .False
  | 3 => .Return
  | 4 => .Not
  | 5 => .Negate
  | 6 => .Equal
  | 7 => .Greater
  | 8 => .Less
  | 9 => .Add
  | 10 => .Subtract
  | 11 => .Multiply
  | 12 => .Divide
  | 13 => .Constant
  | 14 => .Extend
  | _ => .Unknown

/-! ## src/lib.rs and src/vm.rs : values and heap objects -/

/-- `enum Payload` from src/vm.rs: currently only heap strings.  The owned
byte sequence `Box<str>` is modelled as a Lean `String` (concatenation of
the model strings is byte-wise concatenation of the originals).  The source
constructor is called `String`; it is renamed `Str` here because inside the
`Payload` namespace it would shadow the Lean `String` type. -/
inductive Payload where
  | Str (s : String)
deriving DecidableEq, Repr

/-- `struct Object` from src/vm.rs. -/
structure Object where
  payload : Payload
deriving DecidableEq, Repr

/-- `enum Value` from src/lib.rs.  `Object(Obj)` holds an `Rc<RefCell<Object>>`
handle, modelled by the pointed-to `Object` (see the file header). -/
inductive Value where
  | Nil
  | Boolean (b : Bool)
  | Number (x : Rat)
  | Object (o : Object)
deriving DecidableEq, Repr

/-- Derived `PartialEq` on `Value`: structural; `Object` handles compare the
pointed-to payloads (`Rc`/`RefCell` `PartialEq` forward to the contents). -/
def valueEq (a b : Value) : Bool := a = b

/-- `impl From<Value> for bool` (src/lib.rs): Lox truthiness.
`!matches!(value, Nil | Boolean(false))`. -/
def valueTruthy : Value → Bool
  | .Nil => false
  | .Boolean false => false
  | _ => true

/-- `impl Display for Payload` (src/vm.rs): a heap string displays wrapped in
double quotes. -/
def Payload.display : Payload → String
  | .Str s => "\"" ++ s ++ "\""

/-- Textual form of the model's numeric payload.  Stands in for Rust's `f64`
`Display`; no claim below depends on the text of a printed number. -/
def ratDisplay (q : Rat) : String :=
  if q.den = 1 then toString q.num else toString q.num ++ "/" ++ toString q.den

/-- `impl Display for Value` (src/lib.rs). -/
def Value.display : Value → String
  | .Nil => "nil"
  | .Boolean true => "true"
  | .Boolean false => "false"
  | .Number q => ratDisplay q
  | .Object o => o.payload.display

/-! ## src/code.rs : the chunk -/

/-- A 16-bit code unit (`type Bytecode = u16`), built by
`u16::from_be_bytes [op as u8, arg]`, i.e. `256 * opcode-byte + operand-byte`. -/
def unit (op : Op) (arg : Nat) : Nat := 256 * opToNat op + arg % 256

/-- Decoded instruction view (`struct Instruction`). -/
structure Instruction where
  opcode : Op
  operand : Nat
  len : Nat
deriving DecidableEq, Repr

/-- `struct LineMap`. -/
structure LineMap where
  lines : List Nat
  current_line : Nat
deriving DecidableEq, Repr

def LineMap.new : LineMap := ⟨[], 1⟩

def LineMap.new_line (m : LineMap) (line : Nat) : LineMap :=
  { m with current_line := line }

def LineMap.add_op (m : LineMap) : LineMap :=
  { m with lines := m.lines ++ [m.current_line] }

def LineMap.get_line (m : LineMap) (offset : Nat) : Option Nat :=
  m.lines.get? offset

/-- `struct Chunk`. -/
structure Chunk where
  code : List Nat
  constants : List Value
  line_map : LineMap
deriving DecidableEq, Repr

def Chunk.new : Chunk := ⟨[], [], LineMap.new⟩

def Chunk.new_line (c : Chunk) (line : Nat) : Chunk :=
  { c with line_map := c.line_map.new_line line }

/-- `Chunk::push_op`: pack one code unit and record one line-table entry. -/
def Chunk.push_op (c : Chunk) (op : Op) (arg : Nat) : Chunk :=
  { c with code := c.code ++ [unit op arg], line_map := c.line_map.add_op }

/-- `Chunk::write_op`.  The source `assert!(op < Op::Constant)` is a caller
obligation; sequences of calls carry it as a hypothesis where it matters. -/
def Chunk.write_op (c : Chunk) (op : Op) : Chunk :=
  c.push_op op 0

/-- Bit length of a `u32` computed with 32 steps of halving; `32 - bitLen32 n`
is `u32::leading_zeros` for `n < 2^32`. -/
def bitLenAux : Nat → Nat → Nat
  | 0, _ => 0
  | f + 1, n => if n = 0 then 0 else bitLenAux f (n / 2) + 1

def bitLen32 (n : Nat) : Nat := bitLenAux 32 n

/-- `u32::to_be_bytes`: the four big-endian bytes of `n` (for `n < 2^32`). -/
def toBE4 (n : Nat) : List Nat :=
  [n / 2 ^ 24 % 256, n / 2 ^ 16 % 256, n / 2 ^ 8 % 256, n % 256]

/-- `Chunk::write_op_arg`: if the operand exceeds 8 bits, first push `Extend`
units holding `arg >> 8`'s big-endian bytes from index
`3 - (32 - leading_zeros) / 8` on, then the final `(op, arg as u8)` unit.
The source `assert!(op >= Op::Constant)` is a caller obligation. -/
def Chunk.write_op_arg (c : Chunk) (op : Op) (arg : Nat) : Chunk :=
  let c :=
    if arg > 0xff then
      let ext_arg := arg >>> 8
      let start := 3 - bitLen32 ext_arg / 8
      ((toBE4 ext_arg).drop start).foldl (fun acc b => acc.push_op Op.Extend b) c
    else c
  c.push_op op (arg % 256)

/-- `Chunk::add_constant`: fails if the pool index would not fit the
implementation cap `MAX_CONSTS = 0xffffff`; otherwise appends and returns the
new value's index. -/
def Chunk.add_constant (c : Chunk) (v : Value) : Except String (Chunk × Nat) :=
  let idx := c.constants.length
  if idx > 0xffffff then .error "too many constants in one chunk"
  else .ok ({ c with constants := c.constants ++ [v] }, idx)

/-- `Chunk::get_line` (panics on an out-of-range offset in the source,
modelled as `none`). -/
def Chunk.get_line (c : Chunk) (offset : Nat) : Option Nat :=
  c.line_map.get_line offset

/-- `Chunk::get_constant` (panics on an out-of-range index, modelled `none`). -/
def Chunk.get_constant (c : Chunk) (idx : Nat) : Option Value :=
  c.constants.get? idx

/-- The loop body of `Chunk::get_instruction`, reading from the code-unit
suffix that starts at the instruction's offset: accumulate `Extend` operand
bytes, stop at the first non-`Extend` opcode.  An empty suffix mid-walk is an
out-of-bounds index in the source (a panic); it is unreachable for chunks
written through the API and is given a junk `Unknown` result here. -/
def getInstGo : List Nat → Nat → Nat → Instruction
  | [], operand, len => ⟨Op.Unknown, operand, len⟩
  | u :: rest, operand, len =>
    let opcode := opFromNat (u / 256)
    let operand := operand ||| u % 256
    if opcode = Op.Extend then getInstGo rest (operand <<< 8) (len + 1)
    else ⟨opcode, operand, len⟩

/-- `Chunk::get_instruction` at a given offset. -/
def Chunk.get_instruction (c : Chunk) (offset : Nat) : Instruction :=
  getInstGo (c.code.drop offset) 0 1

/-- The decode iterator `InstIter` reified as a list, with fuel bounding the
number of iterations (each iteration consumes at least one code unit, so
`code.length` is enough fuel). -/
def instsGo : Nat → List Nat → List Instruction
  | 0, _ => []
  | _, [] => []
  | f + 1, units =>
    let inst := getInstGo units 0 1
    inst :: instsGo f (units.drop inst.len)

/-- All instructions yielded by `Chunk::instructions`. -/
def Chunk.instructions (c : Chunk) : List Instruction :=
  instsGo c.code.length c.code

/-! ## src/vm.rs : the virtual machine -/

/-- `struct RuntimeError`. -/
structure RuntimeError where
  msg : String
deriving DecidableEq, Repr

/-- `RuntimeError::with_line`: prepend the `[line <N>] ` annotation. -/
def RuntimeError.with_line (e : RuntimeError) (line : Nat) : RuntimeError :=
  ⟨"[line " ++ toString line ++ "] " ++ e.msg⟩

/-- `struct Vm`: the operand stack (list head = stack top) and the heap
registry of weak back-references, modelled as the registered objects. -/
structure Vm where
  stack : List Value
  heap : List Object
deriving DecidableEq, Repr

/-- `Vm::init`. -/
def Vm.init : Vm := ⟨[], []⟩

/-- `Vm::MAX_STACK`. -/
def maxStack : Nat := 1024

/-- `Vm::push`: a checked push, "stack overflow" at capacity. -/
def Vm.push (vm : Vm) (v : Value) : Except RuntimeError Vm :=
  if vm.stack.length < maxStack then .ok { vm with stack := v :: vm.stack }
  else .error ⟨"stack overflow"⟩

/-- `Vm::new_string`: allocate one heap string and register it in the weak
heap registry. -/
def Vm.new_string (vm : Vm) (text : String) : Vm × Value :=
  let object : Object := ⟨Payload.Str text⟩
  ({ vm with heap := vm.heap ++ [object] }, Value.Object object)

/-- `Vm::add_objects`: both payloads are strings (the only payload variant),
so allocate the byte-wise concatenation and push it. -/
def Vm.add_objects (vm : Vm) (a b : Object) : Except RuntimeError Vm :=
  match a.payload, b.payload with
  | .Str sa, .Str sb =>
    let (vm, value) := vm.new_string (sa ++ sb)
    vm.push value

/-- Result of executing one instruction inside `Vm::run`'s loop body:
continue, hit `Return` (printing one line and breaking), or fail with a
runtime error (the carried `Vm` is the state after the arm's pops). -/
inductive StepRes where
  | next (vm : Vm)
  | halt (vm : Vm) (printed : String)
  | fail (vm : Vm) (e : RuntimeError)
deriving DecidableEq, Repr

/-- `Vm::arithmetic_args`: pop the right then the left operand, requiring
both to be numbers.  `none` models the pop-on-empty panic. -/
def Vm.arithmetic_args (vm : Vm) :
    Option (Except RuntimeError (Rat × Rat × Vm)) :=
  match vm.stack with
  | b :: a :: rest =>
    match a, b with
    | .Number x, .Number y => some (.ok (x, y, { vm with stack := rest }))
    | _, _ => some (.error ⟨"operands must be numbers"⟩)
  | _ => none

/-- Lift an `Except` produced while executing an instruction into a
`StepRes`, given the `Vm` whose state an error should carry. -/
def liftStep (vmAtErr : Vm) : Except RuntimeError Vm → StepRes
  | .ok vm => .next vm
  | .error e => .fail vmAtErr e

/-- The dispatch body of `Vm::run` for a single decoded instruction.
`none` models a panic (pop on an empty stack, constant index out of range). -/
def step (vm : Vm) (c : Chunk) (inst : Instruction) : Option StepRes :=
  match inst.opcode with
  | .Nil => some (liftStep vm (vm.push Value.Nil))
  | .True => some (liftStep vm (vm.push (Value.Boolean true)))
  | .False => some (liftStep vm (vm.push (Value.Boolean false)))
  | .Return =>
    match vm.stack with
    | v :: rest => some (.halt { vm with stack := rest } v.display)
    | [] => none
  | .Not =>
    match vm.stack with
    | v :: rest =>
      let arg := valueTruthy v
      some (liftStep { vm with stack := rest }
        (Vm.push { vm with stack := rest } (Value.Boolean (! arg))))
    | [] => none
  | .Negate =>
    match vm.stack with
    | v :: rest =>
      match v with
      | .Number x =>
        some (liftStep { vm with stack := rest }
          (Vm.push { vm with stack := rest } (Value.Number (-x))))
      | _ => some (.fail { vm with stack := rest } ⟨"operand must be a number"⟩)
    | [] => none
  | .Equal =>
    match vm.stack with
    | a :: b :: rest =>
      some (liftStep { vm with stack := rest }
        (Vm.push { vm with stack := rest } (Value.Boolean (valueEq a b))))
    | _ => none
  | .Greater =>
    match vm.arithmetic_args with
    | none => none
    | some (.error e) => some (.fail { vm with stack := vm.stack.drop 2 } e)
    | some (.ok (a, b, vm)) =>
      some (liftStep vm (vm.push (Value.Boolean (decide (a > b)))))
  | .Less =>
    match vm.arithmetic_args with
    | none => none
    | some (.error e) => some (.fail { vm with stack := vm.stack.drop 2 } e)
    | some (.ok (a, b, vm)) =>
      some (liftStep vm (vm.push (Value.Boolean (decide (a < b)))))
  | .Add =>
    match vm.stack with
    | b :: a :: rest =>
      let vm := { vm with stack := rest }
      match a, b with
      | .Number x, .Number y =>
        some (liftStep vm (vm.push (Value.Number (x + y))))
      | .Object oa, .Object ob => some (liftStep vm (vm.add_objects oa ob))
      | _, _ => some (.fail vm ⟨"operands must be numbers or strings"⟩)
    | _ => none
  | .Subtract =>
    match vm.arithmetic_args with
    | none => none
    | some (.error e) => some (.fail { vm with stack := vm.stack.drop 2 } e)
    | some (.ok (a, b, vm)) =>
      some (liftStep vm (vm.push (Value.Number (a - b))))
  | .Multiply =>
    match vm.arithmetic_args with
    | none => none
    | some (.error e) => some (.fail { vm with stack := vm.stack.drop 2 } e)
    | some (.ok (a, b, vm)) =>
      some (liftStep vm (vm.push (Value.Number (a * b))))
  | .Divide =>
    match vm.arithmetic_args with
    | none => none
    | some (.error e) => some (.fail { vm with stack := vm.stack.drop 2 } e)
    | some (.ok (a, b, vm)) =>
      some (liftStep vm (vm.push (Value.Number (a / b))))
  | .Constant =>
    match c.get_constant inst.operand with
    | none => none
    | some v => some (liftStep vm (vm.push v))
  | _ => some (.fail vm ⟨"unknown opcode"⟩)

/-- The `map_err` closure of `Vm::run` on a failing instruction: look the
line up at the instruction's first code unit (a panic, `none`, if the line
table is too short), clear the operand stack, annotate the error. -/
def failResult (c : Chunk) (out : List String) (offset : Nat) (vmErr : Vm)
    (e : RuntimeError) : Option (Vm × List String × Option RuntimeError) :=
  match c.get_line offset with
  | none => none
  | some line => some ({ vmErr with stack := [] }, out, some (e.with_line line))

/-- The `while let` loop of `Vm::run`: decode the instruction at `offset`,
execute it, and on failure annotate the error with the line-table entry at
the failing instruction's first code unit and clear the operand stack.
The returned list is everything printed to standard output; fuel bounds the
iteration count (each iteration consumes at least one code unit). -/
def runGo (c : Chunk) : Nat → Vm → List String → Nat →
    Option (Vm × List String × Option RuntimeError)
  | 0, _, _, _ => none
  | fuel + 1, vm, out, offset =>
    if offset < c.code.length then
      let inst := c.get_instruction offset
      match step vm c inst with
      | none => none
      | some (.next vm) => runGo c fuel vm out (offset + inst.len)
      | some (.halt vm printed) => some (vm, out ++ [printed], none)
      | some (.fail vmErr e) => failResult c out offset vmErr e
    else some (vm, out, none)

/-- `Vm::run` on a chunk (fuel `code.length + 1` covers every iteration the
source loop can make). -/
def Vm.run (vm : Vm) (c : Chunk) :
    Option (Vm × List String × Option RuntimeError) :=
  runGo c (c.code.length + 1) vm [] 0

/-! ## src/scanner.rs : the lexer -/

/-- `enum TokenType`, all 39 variants in source order. -/
inductive TokenType where
  | LeftParen
  | RightParen
  | LeftBrace
  | RightBrace
  | Comma
  | Dot
  | Minus
  | Plus
  | Semicolon
  | Slash
  | Star
  | Bang
  | BangEqual
  | Equal
  | EqualEqual
  | Greater
  | GreaterEqual
  | Less
  | LessEqual
  | Identifier
  | String
  | Number
  | And
  | Class
  | Else
  | False
  | For
  | Fun
  | If
  | Nil
  | Or
  | Print
  | Return
  | Super
  | This
  | True
  | Var
  | While
  | Eof
deriving DecidableEq, Repr

/-- `struct Token`: kind, half-open byte range into the source, line. -/
structure Token where
  ty : TokenType
  start : Nat
  tokEnd : Nat
  line : Nat
deriving DecidableEq, Repr

/-- `Token::default()`: `TokenType::default()` is `Eof`; `Token::default`
has offsets 0 and line 1. -/
def Token.default : Token := ⟨.Eof, 0, 0, 1⟩

/-- `struct Source`: the raw bytes and the read cursor. -/
structure Source where
  text : List Nat
  current : Nat
deriving DecidableEq, Repr

def Source.peek (s : Source) : Option Nat := s.text.get? s.current

def Source.peek_peek (s : Source) : Option Nat := s.text.get? (s.current + 1)

/-- `Source::next` without returning the byte: advance past one byte if any. -/
def Source.advanceOne (s : Source) : Source :=
  if s.current < s.text.length then { s with current := s.current + 1 } else s

/-- `Source::skip_while` with a pure predicate, fuelled by the remaining
byte count (one byte is consumed per iteration, so this runs to the first
non-matching byte). -/
def skipWhileF (p : Nat → Bool) : Nat → Source → Source
  | 0, s => s
  | f + 1, s =>
    match s.peek with
    | some ch => if p ch then skipWhileF p f { s with current := s.current + 1 } else s
    | none => s

def Source.skip_while (s : Source) (p : Nat → Bool) : Source :=
  skipWhileF p (s.text.length - s.current) s

/-- `struct Scanner`. -/
structure Scanner where
  source : Source
  start : Nat
  line : Nat
deriving DecidableEq, Repr

def Scanner.mk0 (text : List Nat) : Scanner := ⟨⟨text, 0⟩, 0, 1⟩

/-- `Scanner::is_digit` on a byte. -/
def isDigit (ch : Nat) : Bool := 48 ≤ ch && ch ≤ 57

/-- `Scanner::is_alpha` on a byte. -/
def isAlpha (ch : Nat) : Bool :=
  (97 ≤ ch && ch ≤ 122) || (65 ≤ ch && ch ≤ 90) || ch = 95

/-- `Scanner::is_ident` on a byte. -/
def isIdent (ch : Nat) : Bool := isAlpha ch || isDigit ch

/-- `Scanner::token_text`: slice the source bytes of a token, rendered as a
string of the corresponding characters. -/
def Scanner.token_text (sc : Scanner) (tok : Token) : String :=
  String.mk (((sc.source.text.drop tok.start).take (tok.tokEnd - tok.start)).map
    Char.ofNat)

/-- `Scanner::make_token`. -/
def Scanner.make_token (sc : Scanner) (ty : TokenType) : Token :=
  ⟨ty, sc.start, sc.source.current, sc.line⟩

/-- One run of whitespace consumption: the `skip_while` inside
`Scanner::skip_whitespace`, whose stateful predicate consumes ` `, `\r`,
`\t`, and `\n` (bumping the line counter). -/
def wsRun : Nat → Scanner → Scanner
  | 0, sc => sc
  | f + 1, sc =>
    match sc.source.peek with
    | some 32 | some 13 | some 9 =>
      wsRun f { sc with source := sc.source.advanceOne }
    | some 10 =>
      wsRun f { sc with source := sc.source.advanceOne, line := sc.line + 1 }
    | _ => sc

/-- The comment-skipping loop of `Scanner::skip_whitespace` (each iteration
that loops again has consumed a `//` comment, at least two bytes, so the
fuel passed by `skip_whitespace` is never exhausted). -/
def skipWsLoop : Nat → Scanner → Scanner
  | 0, sc => sc
  | f + 1, sc =>
    let sc := wsRun (sc.source.text.length - sc.source.current) sc
    if sc.source.peek = some 47 ∧ sc.source.peek_peek = some 47 then
      let sc := { sc with source := sc.source.skip_while (fun ch => ch ≠ 10) }
      skipWsLoop f { sc with source := sc.source.advanceOne }
    else sc

/-- `Scanner::skip_whitespace`, then anchor `start` at the cursor. -/
def Scanner.skip_whitespace (sc : Scanner) : Scanner :=
  let sc := skipWsLoop (sc.source.text.length + 1) sc
  { sc with start := sc.source.current }

/-- `Scanner::number` after the first digit was consumed. -/
def Scanner.numberTok (sc : Scanner) : Scanner × Token :=
  let sc := { sc with source := sc.source.skip_while isDigit }
  let sc :=
    if sc.source.peek == some 46 &&
        (match sc.source.peek_peek with
         | some ch => isDigit ch
         | none => false) then
      { sc with source := (sc.source.advanceOne).skip_while isDigit }
    else sc
  (sc, sc.make_token .Number)

/-- The string-body loop of `Scanner::string`: consume up to the closing
quote, bumping the line counter at embedded newlines. -/
def strRun : Nat → Scanner → Scanner
  | 0, sc => sc
  | f + 1, sc =>
    match sc.source.peek with
    | some 34 => sc
    | some 10 =>
      strRun f { sc with source := sc.source.advanceOne, line := sc.line + 1 }
    | some _ => strRun f { sc with source := sc.source.advanceOne }
    | none => sc

/-- `Scanner::string` after the opening quote was consumed; an exhausted
source before the closing quote is the "unterminated string" scan failure. -/
def Scanner.stringTok (sc : Scanner) : Scanner × Except String Token :=
  let sc := strRun (sc.source.text.length - sc.source.current) sc
  match sc.source.peek with
  | none => (sc, .error "unterminated string")
  | some _ =>
    let sc := { sc with source := sc.source.advanceOne }
    (sc, .ok (sc.make_token .String))

/-- `Scanner::get_ident`. -/
def Scanner.get_ident (sc : Scanner) : Scanner × Token :=
  let sc := { sc with source := sc.source.skip_while isIdent }
  (sc, sc.make_token .Identifier)

/-- The iterator-driven `skip_while` inside `Scanner::check_keyword`:
consume source bytes while they match successive suffix bytes, stopping at
the first mismatch or when the suffix is exhausted. -/
def matchRun : List Nat → Source → Source
  | [], s => s
  | d :: ds, s =>
    match s.peek with
    | some ch =>
      if ch = d then matchRun ds { s with current := s.current + 1 } else s
    | none => s

/-- `Scanner::check_keyword`. -/
def Scanner.check_keyword (sc : Scanner) (skip : Bool) (suffix : List Nat)
    (ty : TokenType) : Scanner × Token :=
  let sc := if skip then { sc with source := sc.source.advanceOne } else sc
  let idx := sc.source.current
  let sc := { sc with source := matchRun suffix sc.source }
  if sc.source.current - idx == suffix.length &&
      (match sc.source.peek with
       | some ch => ! isIdent ch
       | none => true) then
    (sc, sc.make_token ty)
  else sc.get_ident

/-- `Scanner::alpha`: keyword recognition by literal suffix matching. -/
def Scanner.alpha (sc : Scanner) (ch : Nat) : Scanner × Token :=
  match ch with
  | 97 => sc.check_keyword false [110, 100] .And
  | 99 => sc.check_keyword false [108, 97, 115, 115] .Class
  | 101 => sc.check_keyword false [108, 115, 101] .Else
  | 105 => sc.check_keyword false [102] .If
  | 110 => sc.check_keyword false [105, 108] .Nil
  | 111 => sc.check_keyword false [114] .Or
  | 112 => sc.check_keyword false [114, 105, 110, 116] .Print
  | 114 => sc.check_keyword false [101, 116, 117, 114, 110] .Return
  | 115 => sc.check_keyword false [117, 112, 101, 114] .Super
  | 118 => sc.check_keyword false [97, 114] .Var
  | 119 => sc.check_keyword false [104, 105, 108, 101] .While
  | 102 =>
    match sc.source.peek with
    | some 97 => sc.check_keyword true [108, 115, 101] .False
    | some 111 => sc.check_keyword true [114] .For
    | some 117 => sc.check_keyword true [110] .Fun
    | some _ => sc.get_ident
    | none => (sc, sc.make_token .Identifier)
  | 116 =>
    match sc.source.peek with
    | some 104 => sc.check_keyword true [105, 115] .This
    | some 114 => sc.check_keyword true [117, 101] .True
    | some _ => sc.get_ident
    | none => (sc, sc.make_token .Identifier)
  | _ => sc.get_ident

/-- `Scanner::matches`: consume the expected byte if it is next. -/
def Scanner.matchesCh (sc : Scanner) (expected : Nat) : Scanner × Bool :=
  match sc.source.peek with
  | some ch =>
    if ch = expected then ({ sc with source := sc.source.advanceOne }, true)
    else (sc, false)
  | none => (sc, false)

/-- Single- or double-character operator resolution (the `!`/`=`/`<`/`>`
arms of `scan_token`). -/
def Scanner.twoChar (sc : Scanner) (one two : TokenType) : Scanner × Token :=
  let (sc, m) := sc.matchesCh 61
  if m then (sc, sc.make_token two) else (sc, sc.make_token one)

/-- `Scanner::scan_token`: one token (or a descriptive scan failure). -/
def Scanner.scan_token (sc : Scanner) : Scanner × Except String Token :=
  let sc := sc.skip_whitespace
  match sc.source.peek with
  | none => (sc, .ok (sc.make_token .Eof))
  | some ch =>
    let sc := { sc with source := sc.source.advanceOne }
    if isDigit ch then
      let (sc, tok) := sc.numberTok
      (sc, .ok tok)
    else if isAlpha ch then
      let (sc, tok) := sc.alpha ch
      (sc, .ok tok)
    else
      match ch with
      | 40 => (sc, .ok (sc.make_token .LeftParen))
      | 41 => (sc, .ok (sc.make_token .RightParen))
      | 123 => (sc, .ok (sc.make_token .LeftBrace))
      | 125 => (sc, .ok (sc.make_token .RightBrace))
      | 59 => (sc, .ok (sc.make_token .Semicolon))
      | 44 => (sc, .ok (sc.make_token .Comma))
      | 46 => (sc, .ok (sc.make_token .Dot))
      | 45 => (sc, .ok (sc.make_token .Minus))
      | 43 => (sc, .ok (sc.make_token .Plus))
      | 47 => (sc, .ok (sc.make_token .Slash))
      | 42 => (sc, .ok (sc.make_token .Star))
      | 33 =>
        let (sc, tok) := sc.twoChar .Bang .BangEqual
        (sc, .ok tok)
      | 61 =>
        let (sc, tok) := sc.twoChar .Equal .EqualEqual
        (sc, .ok tok)
      | 60 =>
        let (sc, tok) := sc.twoChar .Less .LessEqual
        (sc, .ok tok)
      | 62 =>
        let (sc, tok) := sc.twoChar .Greater .GreaterEqual
        (sc, .ok tok)
      | 34 => sc.stringTok
      | _ =>
        (sc, .error ("unexpected character " ++ sq ++
          String.singleton (Char.ofNat ch) ++ sq))

/-! ## src/parser.rs : the single-pass compiler -/

/-- `enum Prec`, eleven precedence levels, `#[repr(u32)]` in source order. -/
inductive Prec where
  | None
  | Assignment
  | Or
  | And
  | Equality
  | Comparison
  | Term
  | Factor
  | Unary
  | Call
  | Primary
deriving DecidableEq, Repr

/-- The `u32` discriminant of a precedence level. -/
def precToNat : Prec → Nat
  | .None => 0
  | .Assignment => 1
  | .Or => 2
  | .And => 3
  | .Equality => 4
  | .Comparison => 5
  | .Term => 6
  | .Factor => 7
  | .Unary => 8
  | .Call => 9
  | .Primary => 10

/-- `Prec::next` (`from_unchecked(self as u32 + 1)`); it is only ever
applied to an operator's precedence (at most `Comparison`), so the
`Primary` case, undefined behaviour in the source, is given a junk value. -/
def Prec.next : Prec → Prec
  | .None => .Assignment
  | .Assignment => .Or
  | .Or => .And
  | .And => .Equality
  | .Equality => .Comparison
  | .Comparison => .Term
  | .Term => .Factor
  | .Factor => .Unary
  | .Unary => .Call
  | .Call => .Primary
  | .Primary => .Primary

/-- `Prec::for_op_type`: the precedence owned by a binary-operator token. -/
def Prec.for_op_type : TokenType → Prec
  | .Minus | .Plus => .Term
  | .Slash | .Star => .Factor
  | .BangEqual | .EqualEqual => .Equality
  | .Greater | .GreaterEqual | .Less | .LessEqual => .Comparison
  | _ => .None

/-- `struct Parser`.  `reports` collects the text the source writes to the
error stream with `eprintln!`, in order. -/
structure Parser where
  scanner : Scanner
  code : List Chunk
  current : Token
  previous : Token
  had_error : Bool
  panic_mode : Bool
  reports : List String
deriving DecidableEq, Repr

/-- `Parser::new` on source bytes. -/
def Parser.new (text : List Nat) : Parser :=
  ⟨Scanner.mk0 text, [], Token.default, Token.default, false, false, []⟩

/-- `Parser::chunk` is `&mut self.code[0]`; this applies an update to it
(no-op on an empty `code` vector, where the source would panic — unreachable
inside `parse`, which pushes a chunk first). -/
def Parser.chunkMod (st : Parser) (f : Chunk → Chunk) : Parser :=
  match st.code with
  | [] => st
  | c :: rest => { st with code := f c :: rest }

/-- The chunk the parser writes to (`self.code[0]`), `Chunk.new` if absent. -/
def Parser.chunk0 (st : Parser) : Chunk := st.code.headD Chunk.new

/-- `Parser::report_error`: suppressed entirely while in panic mode,
otherwise enters panic mode, sets `had_error`, and emits one report. -/
def Parser.report_error (st : Parser) (line : Nat) (msg : String) : Parser :=
  if st.panic_mode then st
  else
    { st with
        panic_mode := true
        had_error := true
        reports := st.reports ++ ["[line " ++ toString line ++ "] Error" ++ msg] }

/-- `Parser::scan_error`: a scan failure is reported at the previous token's
line with a `: message` suffix. -/
def Parser.scan_error (st : Parser) (e : String) : Parser :=
  st.report_error st.previous.line (": " ++ e)

/-- `Parser::error_at`. -/
def Parser.error_at (st : Parser) (token : Token) (msg : String) : Parser :=
  let text :=
    match token.ty with
    | .Eof => " at end: " ++ msg
    | _ => " at " ++ sq ++ st.scanner.token_text token ++ sq ++ ": " ++ msg
  st.report_error token.line text

/-- `Parser::error` (at the previous token). -/
def Parser.perror (st : Parser) (msg : String) : Parser :=
  st.error_at st.previous msg

/-- `Parser::emit_op`. -/
def Parser.emit_op (st : Parser) (op : Op) : Parser :=
  st.chunkMod (fun c => c.write_op op)

/-- The retry loop of `Parser::advance` (after `previous` was shifted):
report each scan failure and keep scanning; on success install the token and
record a line change on the chunk. -/
def advanceGo : Nat → Parser → Option Parser
  | 0, _ => none
  | fuel + 1, st =>
    match st.scanner.scan_token with
    | (sc, .ok token) =>
      let st := { st with scanner := sc, current := token }
      some (if token.line ≠ st.previous.line then
              st.chunkMod (fun c => c.new_line token.line)
            else st)
    | (sc, .error e) => advanceGo fuel (Parser.scan_error { st with scanner := sc } e)

/-- `Parser::advance`. -/
def Parser.advance (fuel : Nat) (st : Parser) : Option Parser :=
  advanceGo fuel { st with previous := st.current }

/-- `Parser::consume`. -/
def Parser.consume (fuel : Nat) (st : Parser) (ty : TokenType) (msg : String) :
    Option Parser :=
  if st.current.ty = ty then st.advance fuel
  else some (st.error_at st.current msg)

/-- Numeric value of a literal's digit bytes (the model of
`str::parse::<f64>` on a token matching `digits('.'digits)?`; exact as a
rational). -/
def digitsVal (l : List Nat) : Nat := l.foldl (fun a d => a * 10 + (d - 48)) 0

def parseNumber (bs : List Nat) : Rat :=
  let ip := bs.takeWhile (fun ch => ch ≠ 46)
  let rest := bs.dropWhile (fun ch => ch ≠ 46)
  let frac := rest.drop 1
  (digitsVal ip : Rat) + (digitsVal frac : Rat) / (10 : Rat) ^ frac.length

/-- The byte range of a token in the parser's source. -/
def Parser.tokenBytes (st : Parser) (tok : Token) : List Nat :=
  (st.scanner.source.text.drop tok.start).take (tok.tokEnd - tok.start)

/-- `Parser::emit_constant`: pool the value, surfacing an `add_constant`
failure as a compile error at the previous token, else write
`Constant` with the pool index. -/
def Parser.emit_constant (st : Parser) (value : Rat) : Parser :=
  match st.code with
  | [] => st
  | c :: rest =>
    match c.add_constant (Value.Number value) with
    | .error e => st.perror e
    | .ok (c, idx) => { st with code := c.write_op_arg Op.Constant idx :: rest }

/-- `Parser::number`: parse the previous token's text and pool it. -/
def Parser.number (st : Parser) : Parser :=
  st.emit_constant (parseNumber (st.tokenBytes st.previous))

/-- `Parser::literal`: `nil`/`true`/`false` each emit one fixed opcode. -/
def Parser.literal (st : Parser) : Parser :=
  match st.previous.ty with
  | .Nil => st.emit_op Op.Nil
  | .True => st.emit_op Op.True
  | .False => st.emit_op Op.False
  | _ => st

mutual

/-- `Parser::parse_precedence`: consume one prefix construct (or report
"expect expression" and stop), then fold binary operators of at least the
given precedence. -/
def parse_precedence : Nat → Prec → Parser → Option Parser
  | 0, _, _ => none
  | fuel + 1, prec, st => do
    let st ← st.advance fuel
    match st.previous.ty with
    | .LeftParen => do
      let st ← grouping fuel st
      binLoop fuel prec st
    | .Minus | .Bang => do
      let st ← unary fuel st
      binLoop fuel prec st
    | .Number => binLoop fuel prec st.number
    | .Nil | .True | .False => binLoop fuel prec st.literal
    | _ => some (st.perror "expect expression")

/-- The `while precedence <= for_op_type(current)` loop of
`parse_precedence`. -/
def binLoop : Nat → Prec → Parser → Option Parser
  | 0, _, _ => none
  | fuel + 1, prec, st =>
    if precToNat prec ≤ precToNat (Prec.for_op_type st.current.ty) then do
      let st ← st.advance fuel
      let st ← binary fuel st
      binLoop fuel prec st
    else some st

/-- `Parser::grouping`. -/
def grouping : Nat → Parser → Option Parser
  | 0, _ => none
  | fuel + 1, st => do
    let st ← parse_precedence fuel Prec.Assignment st
    st.consume fuel TokenType.RightParen "expect ')' after expression"

/-- `Parser::unary`: parse the operand at unary precedence, then emit
`Negate`/`Not` for the remembered operator (`unreachable!` otherwise,
modelled as `none`). -/
def unary : Nat → Parser → Option Parser
  | 0, _ => none
  | fuel + 1, st => do
    let operator_type := st.previous.ty
    let st ← parse_precedence fuel Prec.Unary st
    match operator_type with
    | .Minus => some (st.emit_op Op.Negate)
    | .Bang => some (st.emit_op Op.Not)
    | _ => none

/-- `Parser::binary`: parse the right operand one level above the
operator's precedence, then emit the operator's opcodes: `+ - * /` and
`== < >` map to one opcode; `!= >= <=` to a comparison followed by `Not`
(`unreachable!` otherwise, modelled as `none`). -/
def binary : Nat → Parser → Option Parser
  | 0, _ => none
  | fuel + 1, st => do
    let operator_type := st.previous.ty
    let st ← parse_precedence fuel (Prec.for_op_type operator_type).next st
    match operator_type with
    | .Plus => some (st.emit_op Op.Add)
    | .Minus => some (st.emit_op Op.Subtract)
    | .Star => some (st.emit_op Op.Multiply)
    | .Slash => some (st.emit_op Op.Divide)
    | .EqualEqual => some (st.emit_op Op.Equal)
    | .Less => some (st.emit_op Op.Less)
    | .Greater => some (st.emit_op Op.Greater)
    | .BangEqual => some ((st.emit_op Op.Equal).emit_op Op.Not)
    | .GreaterEqual => some ((st.emit_op Op.Less).emit_op Op.Not)
    | .LessEqual => some ((st.emit_op Op.Greater).emit_op Op.Not)
    | _ => none

end

/-- `Parser::expression`. -/
def Parser.expression (fuel : Nat) (st : Parser) : Option Parser :=
  parse_precedence fuel Prec.Assignment st

/-- `self.code.push(Chunk::new())` at the top of `Parser::parse`. -/
def Parser.pushChunk (st : Parser) : Parser :=
  { st with code := st.code ++ [Chunk.new] }

/-- `Parser::parse`: push a fresh chunk, compile one expression up to
end-of-input, emit `Return`, and — only when no error occurred — run the
chunk on the given VM (`unwrap` of a runtime error is a panic, `none`).
Returns the parser, the VM, everything printed, and `!had_error`. -/
def Parser.parse (fuel : Nat) (st : Parser) (vm : Vm) :
    Option (Parser × Vm × List String × Bool) := do
  let st := st.pushChunk
  let st ← st.advance fuel
  let st ← st.expression fuel
  let st ← st.consume fuel TokenType.Eof "expect end of expression"
  let st := st.emit_op Op.Return
  let had_error := st.had_error
  if had_error then
    some (st, vm, [], ! st.had_error)
  else
    match vm.run st.chunk0 with
    | none => none
    | some (_, _, some _) => none
    | some (vm, out, Option.none) => some (st, vm, out, ! st.had_error)

/-! ## Call sequences against the chunk-writing API -/

/-- One call of the chunk-writing API (`write_op` / `write_op_arg` /
`new_line`), as the compiler makes them. -/
inductive ChunkCall where
  | wop (op : Op)
  | woparg (op : Op) (arg : Nat)
  | newline (line : Nat)
deriving DecidableEq, Repr

def applyCall (c : Chunk) : ChunkCall → Chunk
  | .wop op => c.write_op op
  | .woparg op arg => c.write_op_arg op arg
  | .newline line => c.new_line line

def applyCalls (c : Chunk) (calls : List ChunkCall) : Chunk :=
  calls.foldl applyCall c

/-! ## Helper lemmas about the chunk -/

theorem push_op_code (c : Chunk) (op : Op) (arg : Nat) :
    (c.push_op op arg).code = c.code ++ [unit op arg] := rfl

theorem push_op_lines (c : Chunk) (op : Op) (arg : Nat) :
    (c.push_op op arg).line_map.lines =
      c.line_map.lines ++ [c.line_map.current_line] := rfl

theorem push_op_current_line (c : Chunk) (op : Op) (arg : Nat) :
    (c.push_op op arg).line_map.current_line = c.line_map.current_line := rfl

theorem push_op_constants (c : Chunk) (op : Op) (arg : Nat) :
    (c.push_op op arg).constants = c.constants := rfl

/-- Effect of the `Extend`-pushing fold inside `write_op_arg` on a chunk. -/
theorem foldl_push_extend (bs : List Nat) (c : Chunk) :
    (bs.foldl (fun acc b => acc.push_op Op.Extend b) c).code =
        c.code ++ bs.map (fun b => unit Op.Extend b) ∧
    (bs.foldl (fun acc b => acc.push_op Op.Extend b) c).line_map.lines =
        c.line_map.lines ++
          List.replicate bs.length c.line_map.current_line ∧
    (bs.foldl (fun acc b => acc.push_op Op.Extend b) c).line_map.current_line =
        c.line_map.current_line ∧
    (bs.foldl (fun acc b => acc.push_op Op.Extend b) c).constants =
        c.constants := by
  induction bs generalizing c with
  | nil => simp
  | cons b bs ih =>
    obtain ⟨h1, h2, h3, h4⟩ := ih (c.push_op Op.Extend b)
    refine ⟨?_, ?_, ?_, ?_⟩ <;>
      simp [h1, h2, h3, h4, push_op_code, push_op_lines, push_op_current_line,
        push_op_constants, List.replicate_succ]

/-- `write_op_arg` appends matched code units and line entries: as many new
line-table entries as new code units, all carrying the current line. -/
theorem write_op_arg_append (c : Chunk) (op : Op) (arg : Nat) :
    ∃ us : List Nat,
      (c.write_op_arg op arg).code = c.code ++ us ∧
      (c.write_op_arg op arg).line_map.lines =
        c.line_map.lines ++ List.replicate us.length c.line_map.current_line ∧
      (c.write_op_arg op arg).line_map.current_line =
        c.line_map.current_line ∧
      (c.write_op_arg op arg).constants = c.constants := by
  unfold Chunk.write_op_arg
  by_cases h : arg > 0xff
  · simp only [h, if_true]
    obtain ⟨h1, h2, h3, h4⟩ :=
      foldl_push_extend ((toBE4 (arg >>> 8)).drop (3 - bitLen32 (arg >>> 8) / 8)) c
    refine ⟨((toBE4 (arg >>> 8)).drop (3 - bitLen32 (arg >>> 8) / 8)).map
        (fun b => unit Op.Extend b) ++ [unit op (arg % 256)], ?_, ?_, ?_, ?_⟩ <;>
      simp [push_op_code, push_op_lines, push_op_current_line, push_op_constants,
        h1, h2, h3, h4, List.replicate_succ']
  · simp only [h, if_false]
    exact ⟨[unit op (arg % 256)], rfl, rfl, rfl, rfl⟩

/-- Every chunk-API call appends as many line-table entries as code units. -/
theorem applyCall_balance (c : Chunk) (call : ChunkCall)
    (h : c.line_map.lines.length = c.code.length) :
    (applyCall c call).line_map.lines.length = (applyCall c call).code.length := by
  cases call with
  | wop op => simp [applyCall, Chunk.write_op, push_op_code, push_op_lines, h]
  | woparg op arg =>
    obtain ⟨us, h1, h2, _, _⟩ := write_op_arg_append c op arg
    simp [applyCall, h1, h2, h]
  | newline line => simpa [applyCall, Chunk.new_line, LineMap.new_line] using h

/-- C2, amended: the line table of any chunk produced by a sequence of
`write_op` / `write_op_arg` / `new_line` calls has exactly one entry per
stored code unit (not per decoded instruction), and a single
`write_op_arg` call appends one entry per emitted code unit, each equal to
the line set by the most recent `new_line` — so indexing the line table at
the offset of an instruction's first code unit yields that instruction's
recorded line. -/
theorem line_table_per_code_unit (calls : List ChunkCall) :
    (applyCalls Chunk.new calls).line_map.lines.length =
      (applyCalls Chunk.new calls).code.length ∧
    (∀ (c : Chunk) (op : Op) (arg : Nat),
      (c.write_op_arg op arg).line_map.lines =
        c.line_map.lines ++
          List.replicate ((c.write_op_arg op arg).code.length - c.code.length)
            c.line_map.current_line) := by
  constructor
  · suffices h : ∀ (c : Chunk), c.line_map.lines.length = c.code.length →
        (applyCalls c calls).line_map.lines.length =
          (applyCalls c calls).code.length by
      exact h Chunk.new rfl
    induction calls with
    | nil => intro c h; simpa [applyCalls] using h
    | cons call calls ih =>
      intro c h
      simpa [applyCalls] using ih (applyCall c call) (applyCall_balance c call h)
  · intro c op arg
    obtain ⟨us, h1, h2, _, _⟩ := write_op_arg_append c op arg
    simp [h1, h2]

/-- C2, counterexample: after the single valid call
`write_op_arg Constant 256` the chunk stores two code units
(`Extend` + `Constant`) and two line-table entries, but its decode iterator
yields a single instruction — `line_table.len()` is not the number of
decoded instructions. -/
theorem line_table_counterexample :
    (applyCalls Chunk.new [ChunkCall.woparg Op.Constant 256]).line_map.lines.length = 2 ∧
    (applyCalls Chunk.new [ChunkCall.woparg Op.Constant 256]).instructions.length = 1 ∧
    ¬ ((applyCalls Chunk.new [ChunkCall.woparg Op.Constant 256]).line_map.lines.length =
       (applyCalls Chunk.new [ChunkCall.woparg Op.Constant 256]).instructions.length) := by
  refine ⟨by decide, by decide, by decide⟩

/-! ## C4 : the constant-pool capacity -/

/-- C4, amended: `add_constant` fails with "too many constants in one chunk"
exactly when the pool already holds more than `2^24 - 1` entries (that is,
when appending would make it exceed `2^24` entries); otherwise it appends
the value and returns its index, so a pool grown through `add_constant`
never holds more than `2^24` constants. -/
theorem add_constant_spec (c : Chunk) (v : Value) :
    (c.add_constant v = .error "too many constants in one chunk" ↔
      0xffffff < c.constants.length) ∧
    (0xffffff < c.constants.length ∨
      c.add_constant v =
        .ok ({ c with constants := c.constants ++ [v] }, c.constants.length)) ∧
    (∀ c' idx, c.add_constant v = .ok (c', idx) →
      c'.constants.length ≤ 2 ^ 24) := by
  by_cases h : 0xffffff < c.constants.length
  · have herr : c.add_constant v = .error "too many constants in one chunk" := by
      simp only [Chunk.add_constant]
      rw [if_pos h]
    refine ⟨⟨fun _ => h, fun _ => herr⟩, Or.inl h, ?_⟩
    intro c' idx hc
    rw [herr] at hc
    exact Except.noConfusion hc
  · have hok : c.add_constant v =
        .ok ({ c with constants := c.constants ++ [v] }, c.constants.length) := by
      simp only [Chunk.add_constant]
      rw [if_neg h]
    refine ⟨⟨fun he => ?_, fun hlt => absurd hlt h⟩, Or.inr hok, ?_⟩
    · rw [hok] at he
      exact Except.noConfusion he
    · intro c' idx hc
      rw [hok] at hc
      cases hc
      simp only [List.length_append, List.length_singleton]
      omega

/-- C4 witness: on an empty chunk `add_constant` succeeds with index 0. -/
theorem add_constant_spec_witness :
    Chunk.new.add_constant Value.Nil =
      .ok ({ Chunk.new with constants := [Value.Nil] }, 0) := by
  have h := (add_constant_spec Chunk.new Value.Nil).2.1
  simpa using h.resolve_left (by decide)

/-- The pool that already holds `2^24 - 1` constants, the boundary case. -/
def bigChunk : Chunk := ⟨[], List.replicate 0xffffff Value.Nil, LineMap.new⟩

/-- C4, counterexample: with `2^24 - 1` constants already pooled, appending
one more would make the pool exceed `2^24 - 1` entries, yet `add_constant`
succeeds (the source bound is `idx > 0xffffff`), so the pool reaches
`2^24` entries — the claimed "fails exactly when the pool would exceed
`2^24 - 1`" is false at this input. -/
theorem add_constant_offbyone :
    ¬ (bigChunk.add_constant Value.Nil = .error "too many constants in one chunk" ↔
        2 ^ 24 - 1 < bigChunk.constants.length + 1) ∧
    bigChunk.add_constant Value.Nil =
      .ok ({ bigChunk with constants := bigChunk.constants ++ [Value.Nil] },
        2 ^ 24 - 1) := by
  have hlen : bigChunk.constants.length = 0xffffff := by
    rw [show bigChunk.constants = List.replicate 0xffffff Value.Nil from rfl,
      List.length_replicate]
  have hok : bigChunk.add_constant Value.Nil =
      .ok ({ bigChunk with constants := bigChunk.constants ++ [Value.Nil] },
        2 ^ 24 - 1) := by
    simp only [Chunk.add_constant]
    rw [if_neg (by rw [hlen]; omega), hlen]
    norm_num
  refine ⟨?_, hok⟩
  intro h
  have h2 := h.mpr (by omega)
  rw [hok] at h2
  exact Except.noConfusion h2

/-! ## C5 : the variable-length operand encoding -/

theorem bitLenAux_le_iff : ∀ (f k n : Nat), k ≤ f → n < 2 ^ f →
    (bitLenAux f n ≤ k ↔ n < 2 ^ k)
  | 0, k, n, hk, hn => by
    have hk0 : k = 0 := Nat.le_zero.mp hk
    subst hk0
    simp only [bitLenAux, pow_zero] at *
    omega
  | f + 1, k, n, hk, hn => by
    by_cases h0 : n = 0
    · subst h0
      simp only [bitLenAux, if_pos rfl]
      simpa using Nat.pos_pow_of_pos k (by omega)
    · rw [show bitLenAux (f + 1) n = bitLenAux f (n / 2) + 1 by
        simp [bitLenAux, h0]]
      rw [pow_succ] at hn
      cases k with
      | zero =>
        simp only [pow_zero]
        omega
      | succ k =>
        have ihh := bitLenAux_le_iff f k (n / 2) (by omega) (by omega)
        rw [pow_succ]
        omega

theorem shiftLeft_lor_eq_add (a b : Nat) (hb : b < 256) :
    (a <<< 8) ||| b = 256 * a + b := by
  have h := (Nat.mul_add_lt_is_or (b := b) (i := 8) (by exact hb) a).symm
  rw [Nat.shiftLeft_eq]
  calc a * 2 ^ 8 ||| b = 2 ^ 8 * a ||| b := by rw [Nat.mul_comm]
    _ = 2 ^ 8 * a + b := h
    _ = 256 * a + b := by norm_num

theorem shl8_lor_mod (a x : Nat) : (a <<< 8) ||| x % 256 = 256 * a + x % 256 :=
  shiftLeft_lor_eq_add a (x % 256) (Nat.mod_lt x (by norm_num))

theorem unit_div (op : Op) (b : Nat) : unit op b / 256 = opToNat op := by
  unfold unit
  omega

theorem unit_mod (op : Op) (b : Nat) : unit op b % 256 = b % 256 := by
  unfold unit
  omega

theorem unit_mod_self (op : Op) (b : Nat) : unit op (b % 256) = unit op b := by
  unfold unit
  omega

theorem opFromNat_opToNat (op : Op) : opFromNat (opToNat op) = op := by
  cases op <;> rfl

theorem getInstGo_single (op : Op) (b : Nat) (hne : op ≠ Op.Extend)
    (acc len : Nat) :
    getInstGo [unit op b] acc len = ⟨op, acc ||| b % 256, len⟩ := by
  simp [getInstGo, unit_div, unit_mod, opFromNat_opToNat, hne]

theorem getInstGo_extend (b : Nat) (rest : List Nat) (acc len : Nat) :
    getInstGo (unit Op.Extend b :: rest) acc len =
      getInstGo rest ((acc ||| b % 256) <<< 8) (len + 1) := by
  simp [getInstGo, unit_div, unit_mod, opFromNat_opToNat]

/-- C5, amended: `write_op_arg` emits a single `(opcode, operand)` unit when
the operand fits in 8 bits, and otherwise `Extend` units holding the
big-endian bytes of `operand >> 8` — possibly including one leading zero
byte (exactly when the bit-length of `operand >> 8` is a multiple of 8,
e.g. operands `0x8000..0xffff` and `0x800000..0xffffff`) — followed by the
final `(opcode, low byte)` unit; for every operand-bearing opcode other
than `Extend` itself, decoding the emitted units reproduces the opcode and
the operand exactly. -/
theorem write_op_arg_roundtrip (c : Chunk) (op : Op) (n : Nat)
    (hop : opToNat Op.Constant ≤ opToNat op) (hne : op ≠ Op.Extend)
    (hn : n < 2 ^ 24) :
    ∃ ext : List Nat,
      (c.write_op_arg op n).code =
        c.code ++ ext.map (fun b => unit Op.Extend b) ++ [unit op n] ∧
      (n ≤ 0xff ↔ ext = []) ∧
      (∀ b ∈ ext, b < 256) ∧
      getInstGo (ext.map (fun b => unit Op.Extend b) ++ [unit op n]) 0 1 =
        ⟨op, n, ext.length + 1⟩ := by
  have hmod : n % 256 = n % 256 := rfl
  by_cases h1 : n ≤ 0xff
  · refine ⟨[], ?_, by simp [h1], by simp, ?_⟩
    · simp only [Chunk.write_op_arg]
      rw [if_neg (by omega)]
      simp [push_op_code, unit_mod_self]
    · rw [List.map_nil, List.nil_append, getInstGo_single op n hne]
      simp only [Instruction.mk.injEq]
      refine ⟨by trivial, ?_, by trivial⟩
      rw [Nat.zero_or]
      omega
  · have hext : n >>> 8 = n / 256 := by
      rw [Nat.shiftRight_eq_div_pow]
    have he1 : 1 ≤ n / 256 := by omega
    have he2 : n / 256 < 2 ^ 16 := by omega
    have hcode : ∀ start : Nat, 3 - bitLen32 (n >>> 8) / 8 = start →
        (c.write_op_arg op n).code =
          c.code ++ ((toBE4 (n / 256)).drop start).map
            (fun b => unit Op.Extend b) ++ [unit op n] := by
      intro start hstart
      simp only [Chunk.write_op_arg]
      rw [if_pos (by omega)]
      rw [hext] at hstart
      rw [hext, hstart]
      obtain ⟨h1c, _, _, _⟩ := foldl_push_extend ((toBE4 (n / 256)).drop start) c
      rw [push_op_code, h1c, unit_mod_self]
    by_cases hA : n / 256 < 128
    · -- one `Extend` byte
      have hstart : 3 - bitLen32 (n >>> 8) / 8 = 3 := by
        rw [hext]
        have := (bitLenAux_le_iff 32 7 (n / 256) (by omega) (by omega)).mpr
          (by omega)
        unfold bitLen32
        omega
      refine ⟨[n / 256 % 256], ?_, by simp; omega, by simp; omega, ?_⟩
      · rw [hcode 3 hstart]
        simp [toBE4]
      · simp only [List.map_cons, List.map_nil, List.cons_append, List.nil_append]
        rw [getInstGo_extend, getInstGo_single op n hne]
        simp only [Instruction.mk.injEq]
        refine ⟨by trivial, ?_, by trivial⟩
        rw [Nat.zero_or, shl8_lor_mod]
        omega
    · by_cases hB : n / 256 < 32768
      · -- two `Extend` bytes (leading byte zero iff `n / 256 < 256`)
        have hstart : 3 - bitLen32 (n >>> 8) / 8 = 2 := by
          rw [hext]
          have hlow := (bitLenAux_le_iff 32 7 (n / 256) (by omega) (by omega))
          have hhigh := (bitLenAux_le_iff 32 15 (n / 256) (by omega) (by omega)).mpr
            (by omega)
          unfold bitLen32
          omega
        refine ⟨[n / 256 / 2 ^ 8 % 256, n / 256 % 256], ?_, by simp; omega,
          by simp; omega, ?_⟩
        · rw [hcode 2 hstart]
          simp [toBE4]
        · simp only [List.map_cons, List.map_nil, List.cons_append,
            List.nil_append]
          rw [getInstGo_extend, getInstGo_extend, getInstGo_single op n hne]
          simp only [Instruction.mk.injEq]
          refine ⟨by trivial, ?_, by trivial⟩
          rw [Nat.zero_or, shl8_lor_mod, shl8_lor_mod]
          omega
      · -- three `Extend` bytes, the first a zero byte
        have hstart : 3 - bitLen32 (n >>> 8) / 8 = 1 := by
          rw [hext]
          have hlow := (bitLenAux_le_iff 32 15 (n / 256) (by omega) (by omega))
          have hhigh := (bitLenAux_le_iff 32 16 (n / 256) (by omega) (by omega)).mpr
            (by omega)
          unfold bitLen32
          omega
        refine ⟨[n / 256 / 2 ^ 16 % 256, n / 256 / 2 ^ 8 % 256, n / 256 % 256],
          ?_, by simp; omega, by simp; omega, ?_⟩
        · rw [hcode 1 hstart]
          simp [toBE4]
        · simp only [List.map_cons, List.map_nil, List.cons_append,
            List.nil_append]
          rw [getInstGo_extend, getInstGo_extend, getInstGo_extend,
            getInstGo_single op n hne]
          simp only [Instruction.mk.injEq]
          refine ⟨by trivial, ?_, by trivial⟩
          rw [Nat.zero_or, shl8_lor_mod, shl8_lor_mod, shl8_lor_mod]
          omega

/-- C5 witness: the roundtrip at `Constant` with operand 256 on the empty
chunk — one `Extend` unit then the final unit, decoding back to 256. -/
theorem write_op_arg_roundtrip_witness :
    ∃ ext : List Nat,
      (Chunk.new.write_op_arg Op.Constant 256).code =
        Chunk.new.code ++ ext.map (fun b => unit Op.Extend b) ++
          [unit Op.Constant 256] ∧
      (256 ≤ 0xff ↔ ext = []) ∧
      (∀ b ∈ ext, b < 256) ∧
      getInstGo (ext.map (fun b => unit Op.Extend b) ++ [unit Op.Constant 256])
          0 1 = ⟨Op.Constant, 256, ext.length + 1⟩ :=
  write_op_arg_roundtrip Chunk.new Op.Constant 256 (by decide) (by decide)
    (by norm_num)

/-- Modelled from the spec (for comparison with the implementation): the
claimed encoding — one unit if the operand fits 8 bits, else `Extend` units
carrying the high-order bytes with the most-significant non-zero byte
first, then the final `(opcode, low byte)` unit. -/
def specEncode (op : Op) (n : Nat) : List Nat :=
  if n ≤ 0xff then [unit op n]
  else ((toBE4 (n >>> 8)).dropWhile (fun b => b = 0)).map
      (fun b => unit Op.Extend b) ++ [unit op (n % 256)]

/-- C5, counterexample: at operand `0x8000` the implementation emits a
zero `Extend` byte before the `0x80` byte; the claimed encoding has no
leading zero unit, so the emitted code differs from it. -/
theorem write_op_arg_leading_zero :
    (Chunk.new.write_op_arg Op.Constant 0x8000).code =
      [unit Op.Extend 0, unit Op.Extend 0x80, unit Op.Constant 0] ∧
    specEncode Op.Constant 0x8000 = [unit Op.Extend 0x80, unit Op.Constant 0] ∧
    ¬ ((Chunk.new.write_op_arg Op.Constant 0x8000).code =
        specEncode Op.Constant 0x8000) := by
  refine ⟨by decide, by decide, by decide⟩

/-! ## C7 : runtime-error annotation and stack clearing -/

/-- `InstStart c o o'` : decoding forward from offset `o`, offset `o'` is
the first code unit of some instruction (never a continuation unit). -/
inductive InstStart (c : Chunk) : Nat → Nat → Prop
  | refl (o : Nat) : InstStart c o o
  | step (o o' : Nat) : o < c.code.length →
      InstStart c (o + (c.get_instruction o).len) o' → InstStart c o o'

theorem runGo_err (c : Chunk) (fuel : Nat) :
    ∀ (vm : Vm) (out : List String) (off : Nat) (vm' : Vm)
      (out' : List String) (e : RuntimeError),
    runGo c fuel vm out off = some (vm', out', some e) →
    vm'.stack = [] ∧
    ∃ (off0 : Nat) (e0 : RuntimeError) (line : Nat),
      InstStart c off off0 ∧ c.get_line off0 = some line ∧
      e = e0.with_line line := by
  induction fuel with
  | zero =>
    intro vm out off vm' out' e h
    exact absurd h (by simp [runGo])
  | succ fuel ih =>
    intro vm out off vm' out' e h
    simp only [runGo] at h
    by_cases hoff : off < c.code.length
    · rw [if_pos hoff] at h
      cases hstep : step vm c (c.get_instruction off) with
      | none =>
        rw [hstep] at h
        exact absurd h (by simp)
      | some res =>
        rw [hstep] at h
        cases res with
        | next vm2 =>
          replace h : runGo c fuel vm2 out (off + (c.get_instruction off).len) =
              some (vm', out', some e) := h
          obtain ⟨h1, off0, e0, line, h2, h3, h4⟩ :=
            ih vm2 out _ vm' out' e h
          exact ⟨h1, off0, e0, line, .step off off0 hoff h2, h3, h4⟩
        | halt vm2 printed =>
          replace h : (vm2, out ++ [printed],
              (Option.none : Option RuntimeError)) = (vm', out', some e) :=
            Option.some.inj h
          have hbad := congrArg (fun p => p.2.2) h
          simp at hbad
        | fail vmErr e0 =>
          replace h : failResult c out off vmErr e0 =
              some (vm', out', some e) := h
          unfold failResult at h
          cases hline : c.get_line off with
          | none =>
            rw [hline] at h
            exact absurd h (by simp)
          | some line =>
            rw [hline] at h
            replace h := Option.some.inj h
            refine ⟨?_, off, e0, line, .refl off, hline, ?_⟩
            · rw [show vm' = { vmErr with stack := [] } from (congrArg Prod.fst h).symm]
            · have := congrArg (fun p => p.2.2) h
              simpa using this.symm
    · rw [if_neg hoff] at h
      replace h := Option.some.inj h
      have := congrArg (fun p => p.2.2) h
      simp at this

/-- C7: whenever `run` returns a runtime error, its message is the failing
instruction's base message annotated as `[line <N>] <message>` with `N`
looked up in the chunk's line table at the offset of the failing
instruction's first code unit (an instruction-start offset, never a
continuation unit), and the VM's operand stack is empty in the returned
state. -/
theorem run_err_line_and_clear (c : Chunk) (vm vm' : Vm) (out' : List String)
    (e : RuntimeError) (h : vm.run c = some (vm', out', some e)) :
    vm'.stack = [] ∧
    ∃ (off0 : Nat) (e0 : RuntimeError) (line : Nat),
      InstStart c 0 off0 ∧ c.get_line off0 = some line ∧
      e = e0.with_line line :=
  runGo_err c (c.code.length + 1) vm [] 0 vm' out' e h

/-- The two-instruction chunk `Nil; Negate`, whose `Negate` fails on `nil`. -/
def negChunk : Chunk := (Chunk.new.write_op Op.Nil).write_op Op.Negate

/-- C7 witness: running `Nil; Negate` fails at offset 1 with
`[line 1] operand must be a number`, and the returned stack is empty. -/
theorem run_err_line_and_clear_witness :
    Vm.init.run negChunk =
      some (⟨[], []⟩, [], some ⟨"[line 1] operand must be a number"⟩) ∧
    ((⟨[], []⟩ : Vm).stack = [] ∧
      ∃ (off0 : Nat) (e0 : RuntimeError) (line : Nat),
        InstStart negChunk 0 off0 ∧
        negChunk.get_line off0 = some line ∧
        (⟨"[line 1] operand must be a number"⟩ : RuntimeError) =
          e0.with_line line) := by
  have hrun : Vm.init.run negChunk =
      some (⟨[], []⟩, [], some ⟨"[line 1] operand must be a number"⟩) := by
    decide
  exact ⟨hrun, run_err_line_and_clear negChunk Vm.init _ _ _ hrun⟩

/-! ## C8 : the `Add` instruction -/

/-- C8: `Add` pops the right operand then the left; two numbers push the
numeric sum; two heap strings allocate exactly one new heap string — the
byte-wise concatenation, left contents first — register it in the weak heap
registry, and push it; every other type pairing fails with "operands must
be numbers or strings". -/
theorem add_step (vm : Vm) (c : Chunk) (inst : Instruction)
    (hop : inst.opcode = Op.Add) (a b : Value) (rest : List Value)
    (hs : vm.stack = b :: a :: rest) (hlen : vm.stack.length ≤ maxStack) :
    (∀ x y, a = Value.Number x → b = Value.Number y →
      step vm c inst =
        some (.next { vm with stack := Value.Number (x + y) :: rest })) ∧
    (∀ sa sb, a = Value.Object ⟨Payload.Str sa⟩ →
      b = Value.Object ⟨Payload.Str sb⟩ →
      step vm c inst = some (.next
        { stack := Value.Object ⟨Payload.Str (sa ++ sb)⟩ :: rest,
          heap := vm.heap ++ [⟨Payload.Str (sa ++ sb)⟩] })) ∧
    ((∀ x y, ¬(a = Value.Number x ∧ b = Value.Number y)) →
      (∀ oa ob, ¬(a = Value.Object oa ∧ b = Value.Object ob)) →
      step vm c inst =
        some (.fail { vm with stack := rest }
          ⟨"operands must be numbers or strings"⟩)) := by
  have hrest : rest.length < maxStack := by
    rw [hs] at hlen
    simp only [List.length_cons] at hlen
    omega
  refine ⟨?_, ?_, ?_⟩
  · intro x y ha hb
    subst ha hb
    simp [step, hop, hs, Vm.push, liftStep, hrest]
  · intro sa sb ha hb
    subst ha hb
    simp [step, hop, hs, Vm.add_objects, Vm.new_string, Vm.push, liftStep, hrest]
  · intro hnum hobj
    cases a with
    | Number x =>
      cases b with
      | Number y => exact absurd ⟨rfl, rfl⟩ (hnum x y)
      | Nil => simp [step, hop, hs]
      | Boolean bv => simp [step, hop, hs]
      | Object ob => simp [step, hop, hs]
    | Object oa =>
      cases b with
      | Object ob => exact absurd ⟨rfl, rfl⟩ (hobj oa ob)
      | Nil => simp [step, hop, hs]
      | Boolean bv => simp [step, hop, hs]
      | Number y => simp [step, hop, hs]
    | Nil => cases b <;> simp [step, hop, hs]
    | Boolean bv => cases b <;> simp [step, hop, hs]

/-- C8 witness: adding the heap strings `"a"` and `"b"` (right operand on
top) pushes the single freshly registered heap string `"ab"`. -/
theorem add_step_witness :
    step ⟨[Value.Object ⟨Payload.Str "b"⟩, Value.Object ⟨Payload.Str "a"⟩], []⟩
        Chunk.new ⟨Op.Add, 0, 1⟩ =
      some (.next ⟨[Value.Object ⟨Payload.Str "ab"⟩], [⟨Payload.Str "ab"⟩]⟩) :=
  (add_step ⟨[Value.Object ⟨Payload.Str "b"⟩, Value.Object ⟨Payload.Str "a"⟩], []⟩
      Chunk.new ⟨Op.Add, 0, 1⟩ rfl _ _ [] rfl (by norm_num [maxStack])).2.1
    "a" "b" rfl rfl

/-! ## C9 : `Not` and truthiness -/

/-- Source text as the byte list the scanner consumes. -/
def srcBytes (s : String) : List Nat := s.toList.map Char.toNat

set_option maxHeartbeats 4000000 in
theorem parse_not_nil :
    (Parser.parse 20 (Parser.new (srcBytes "!nil")) Vm.init).map
        (fun r => (r.2.2.1, r.2.2.2)) = some (["true"], true) := by decide

set_option maxHeartbeats 4000000 in
theorem parse_not_false :
    (Parser.parse 20 (Parser.new (srcBytes "!false")) Vm.init).map
        (fun r => (r.2.2.1, r.2.2.2)) = some (["true"], true) := by decide

set_option maxHeartbeats 4000000 in
theorem parse_not_zero :
    (Parser.parse 20 (Parser.new (srcBytes "!0")) Vm.init).map
        (fun r => (r.2.2.1, r.2.2.2)) = some (["false"], true) := by decide

/-- C9: `Not` pops one value and pushes the negation of its truthiness,
where exactly `nil` and `false` are falsy (`0` and every other value are
truthy); compiling and running `!nil`, `!false`, and `!0` prints `true`,
`true`, and `false`. -/
theorem not_step (vm : Vm) (c : Chunk) (inst : Instruction)
    (hop : inst.opcode = Op.Not) (v : Value) (rest : List Value)
    (hs : vm.stack = v :: rest) (hlen : vm.stack.length ≤ maxStack) :
    step vm c inst =
      some (.next { vm with stack := Value.Boolean (! valueTruthy v) :: rest }) ∧
    (valueTruthy v = false ↔ v = Value.Nil ∨ v = Value.Boolean false) ∧
    (Parser.parse 20 (Parser.new (srcBytes "!nil")) Vm.init).map
        (fun r => (r.2.2.1, r.2.2.2)) = some (["true"], true) ∧
    (Parser.parse 20 (Parser.new (srcBytes "!false")) Vm.init).map
        (fun r => (r.2.2.1, r.2.2.2)) = some (["true"], true) ∧
    (Parser.parse 20 (Parser.new (srcBytes "!0")) Vm.init).map
        (fun r => (r.2.2.1, r.2.2.2)) = some (["false"], true) := by
  have hrest : rest.length < maxStack := by
    rw [hs] at hlen
    simp only [List.length_cons] at hlen
    omega
  refine ⟨?_, ?_, parse_not_nil, parse_not_false, parse_not_zero⟩
  · simp [step, hop, hs, Vm.push, liftStep, hrest]
  · cases v with
    | Nil => simp [valueTruthy]
    | Boolean bv => cases bv <;> simp [valueTruthy]
    | Number x => simp [valueTruthy]
    | Object o => simp [valueTruthy]

/-- C9 witness: `Not` applied to the number 0 on the stack pushes
`Boolean false` (0 is truthy). -/
theorem not_step_witness :
    step ⟨[Value.Number 0], []⟩ Chunk.new ⟨Op.Not, 0, 1⟩ =
      some (.next ⟨[Value.Boolean false], []⟩) :=
  (not_step ⟨[Value.Number 0], []⟩ Chunk.new ⟨Op.Not, 0, 1⟩ rfl
    (Value.Number 0) [] rfl (by norm_num [maxStack])).1

/-! ## C6 : lowering of the binary operators -/

/-- C6: given that the right operand parsed (at one level above the
operator's precedence), `binary` lowers `+ - * /` to
`Add/Subtract/Multiply/Divide`, `==` to `Equal`, `<`/`>` to
`Less`/`Greater`, and each derived operator to exactly two emitted
opcodes: `!=` to `Equal` then `Not`, `>=` to `Less` then `Not`, `<=` to
`Greater` then `Not`. -/
theorem binary_lowering (fuel : Nat) (st st' st1 : Parser)
    (h : binary (fuel + 1) st = some st')
    (hrhs : parse_precedence fuel (Prec.for_op_type st.previous.ty).next st =
      some st1) :
    (st.previous.ty = TokenType.Plus → st' = st1.emit_op Op.Add) ∧
    (st.previous.ty = TokenType.Minus → st' = st1.emit_op Op.Subtract) ∧
    (st.previous.ty = TokenType.Star → st' = st1.emit_op Op.Multiply) ∧
    (st.previous.ty = TokenType.Slash → st' = st1.emit_op Op.Divide) ∧
    (st.previous.ty = TokenType.EqualEqual → st' = st1.emit_op Op.Equal) ∧
    (st.previous.ty = TokenType.Less → st' = st1.emit_op Op.Less) ∧
    (st.previous.ty = TokenType.Greater → st' = st1.emit_op Op.Greater) ∧
    (st.previous.ty = TokenType.BangEqual →
      st' = (st1.emit_op Op.Equal).emit_op Op.Not) ∧
    (st.previous.ty = TokenType.GreaterEqual →
      st' = (st1.emit_op Op.Less).emit_op Op.Not) ∧
    (st.previous.ty = TokenType.LessEqual →
      st' = (st1.emit_op Op.Greater).emit_op Op.Not) := by
  simp only [binary, hrhs, Option.bind_eq_bind, Option.some_bind] at h
  refine ⟨?_, ?_, ?_, ?_, ?_, ?_, ?_, ?_, ?_, ?_⟩ <;>
    (intro hty; rw [hty] at h; exact (Option.some.inj h).symm)

/-- Mid-parse state of `1 != 2` entering `binary` (previous token `!=`). -/
def c6p0 : Parser := { Parser.new (srcBytes "1 != 2") with code := [Chunk.new] }
def c6p1 : Parser := (c6p0.advance 20).getD c6p0
def c6p2 : Parser := (c6p1.advance 20).getD c6p0
def c6p3 : Parser := c6p2.number
def c6p4 : Parser := (c6p3.advance 20).getD c6p0
def c6res : Parser := (binary 20 c6p4).getD c6p0
def c6rhs : Parser :=
  (parse_precedence 19 (Prec.for_op_type c6p4.previous.ty).next c6p4).getD c6p0

set_option maxHeartbeats 4000000 in
/-- C6 witness: in the middle of compiling `1 != 2`, the `!=` operator is
lowered to `Equal` then `Not` after its right operand. -/
theorem binary_lowering_witness :
    c6res = (c6rhs.emit_op Op.Equal).emit_op Op.Not :=
  (binary_lowering 19 c6p4 c6res c6rhs rfl rfl).2.2.2.2.2.2.2.1 rfl

/-! ## C1 : string literals and the expression grammar -/

set_option maxHeartbeats 4000000 in
/-- C1, counterexample: compiling `"a" + "b"` does not succeed — the parser
has no prefix rule for string-literal tokens, so it reports
`[line 1] Error at '"a"': expect expression`, prints nothing, leaves the VM
untouched (no heap string is allocated), and returns failure. -/
theorem string_literal_rejected :
    (Parser.parse 20 (Parser.new (srcBytes "\"a\" + \"b\"")) Vm.init).map
        (fun r => (r.2.2.2, r.2.2.1, r.2.1, r.1.had_error, r.1.reports)) =
      some (false, [], Vm.init, true,
        ["[line 1] Error at " ++ sq ++ "\"a\"" ++ sq ++ ": expect expression"]) ∧
    ¬ ((Parser.parse 20 (Parser.new (srcBytes "\"a\" + \"b\"")) Vm.init).map
        (fun r => (r.2.2.2, r.2.2.1)) = some (true, ["ab"])) := by
  refine ⟨by decide, by decide⟩

set_option maxHeartbeats 4000000 in
/-- C1, amended: string literals are not among the supported literal
prefixes — whenever the token consumed as a prefix is a `String` token,
`parse_precedence` reports "expect expression" and stops; in particular
compiling `"a" + "b"` fails, prints nothing, and allocates no heap string
(string concatenation exists only at the VM level, in `Add`). -/
theorem string_literals_unsupported :
    (∀ (fuel : Nat) (prec : Prec) (st st1 : Parser),
      Parser.advance fuel st = some st1 →
      st1.previous.ty = TokenType.String →
      parse_precedence (fuel + 1) prec st =
        some (st1.perror "expect expression")) ∧
    (Parser.parse 20 (Parser.new (srcBytes "\"a\" + \"b\"")) Vm.init).map
        (fun r => (r.2.2.2, r.2.2.1, r.2.1.heap.length, r.1.had_error)) =
      some (false, [], 0, true) := by
  constructor
  · intro fuel prec st st1 hadv hty
    simp only [parse_precedence, hadv, Option.bind_eq_bind, Option.some_bind]
    rw [hty]
  · decide

/-- Mid-parse state of `"a" + "b"`: the second `advance` makes the string
token the previous (prefix) token. -/
def c1p0 : Parser :=
  { Parser.new (srcBytes "\"a\" + \"b\"") with code := [Chunk.new] }
def c1p1 : Parser := (c1p0.advance 20).getD c1p0
def c1p2 : Parser := (c1p1.advance 20).getD c1p0

set_option maxHeartbeats 4000000 in
/-- C1 witness: the prefix dispatch on the concrete `"a"` token of
`"a" + "b"` yields the "expect expression" error state. -/
theorem string_literals_unsupported_witness :
    parse_precedence 21 Prec.Assignment c1p1 =
      some (c1p2.perror "expect expression") :=
  string_literals_unsupported.1 20 Prec.Assignment c1p1 c1p2 (by decide)
    (by decide)

/-! ## C3 : error reporting and panic mode -/

/-- Relation between a parser state and any state the compiler derives from
it: panic mode is sticky, at most one report is added — none when panic
mode was already set — and the report list only changes when panic mode is
on afterwards. -/
def ErrInv (s t : Parser) : Prop :=
  (s.panic_mode = true → t.panic_mode = true) ∧
  t.reports.length ≤ s.reports.length +
    (if s.panic_mode = true then 0 else 1) ∧
  (t.panic_mode = false → t.reports = s.reports)

theorem errInv_refl (s : Parser) : ErrInv s s :=
  ⟨id, by split <;> omega, fun _ => rfl⟩

theorem errInv_trans {s t u : Parser} (h1 : ErrInv s t) (h2 : ErrInv t u) :
    ErrInv s u := by
  obtain ⟨m1, l1, r1⟩ := h1
  obtain ⟨m2, l2, r2⟩ := h2
  refine ⟨fun hp => m2 (m1 hp), ?_, fun hu => ?_⟩
  · by_cases hs : s.panic_mode = true
    · have ht := m1 hs
      rw [if_pos hs] at l1 ⊢
      rw [if_pos ht] at l2
      omega
    · rw [if_neg hs] at l1 ⊢
      by_cases ht : t.panic_mode = true
      · rw [if_pos ht] at l2
        omega
      · have ht' : t.panic_mode = false := by
          revert ht
          cases t.panic_mode <;> simp
        rw [r1 ht'] at l2
        rw [if_neg ht] at l2
        omega
  · have ht : t.panic_mode = false := by
      cases htv : t.panic_mode with
      | true => exact absurd (m2 htv) (by simp [hu])
      | false => rfl
    rw [r2 hu, r1 ht]

/-- A state with the same panic flag and reports satisfies the invariant. -/
theorem errInv_same {s t : Parser} (hp : t.panic_mode = s.panic_mode)
    (hr : t.reports = s.reports) : ErrInv s t :=
  ⟨fun h => hp ▸ h, by rw [hr]; split <;> omega, fun _ => hr⟩

theorem errInv_report (st : Parser) (line : Nat) (msg : String) :
    ErrInv st (st.report_error line msg) := by
  unfold Parser.report_error
  cases hp : st.panic_mode with
  | true => rw [if_pos (by simp [hp])]; exact errInv_refl st
  | false =>
    rw [if_neg (by simp [hp])]
    refine ⟨fun h => rfl, ?_, fun h => by simp at h⟩
    simp [hp]

theorem errInv_error_at (st : Parser) (tok : Token) (msg : String) :
    ErrInv st (st.error_at tok msg) := by
  unfold Parser.error_at
  exact errInv_report st tok.line _

theorem errInv_perror (st : Parser) (msg : String) :
    ErrInv st (st.perror msg) :=
  errInv_error_at st st.previous msg

theorem errInv_scan_error (st : Parser) (e : String) :
    ErrInv st (st.scan_error e) :=
  errInv_report st st.previous.line _

theorem chunkMod_fields (st : Parser) (f : Chunk → Chunk) :
    (st.chunkMod f).panic_mode = st.panic_mode ∧
    (st.chunkMod f).reports = st.reports := by
  unfold Parser.chunkMod
  cases st.code <;> simp

theorem errInv_chunkMod (st : Parser) (f : Chunk → Chunk) :
    ErrInv st (st.chunkMod f) :=
  errInv_same (chunkMod_fields st f).1 (chunkMod_fields st f).2

theorem errInv_emit_op (st : Parser) (op : Op) : ErrInv st (st.emit_op op) :=
  errInv_chunkMod st _

theorem errInv_pushChunk (st : Parser) : ErrInv st st.pushChunk :=
  errInv_same rfl rfl

theorem errInv_emit_constant (st : Parser) (value : Rat) :
    ErrInv st (st.emit_constant value) := by
  unfold Parser.emit_constant
  split
  · exact errInv_refl st
  · split
    · exact errInv_perror st _
    · exact errInv_same rfl rfl

theorem errInv_number (st : Parser) : ErrInv st st.number :=
  errInv_emit_constant st _

theorem errInv_literal (st : Parser) : ErrInv st st.literal := by
  unfold Parser.literal
  split <;>
    first
      | exact errInv_emit_op st _
      | exact errInv_refl st

theorem errInv_advanceGo (fuel : Nat) :
    ∀ st st', advanceGo fuel st = some st' → ErrInv st st' := by
  induction fuel with
  | zero =>
    intro st st' h
    exact absurd h (by simp [advanceGo])
  | succ fuel ih =>
    intro st st' h
    unfold advanceGo at h
    cases hscan : st.scanner.scan_token with
    | mk sc res =>
      rw [hscan] at h
      cases res with
      | ok token =>
        replace h := Option.some.inj h
        subst h
        split
        · exact errInv_trans (errInv_same rfl rfl)
            (errInv_chunkMod { st with scanner := sc, current := token } _)
        · exact errInv_same rfl rfl
      | error e =>
        exact errInv_trans
          (errInv_trans (errInv_same rfl rfl)
            (errInv_scan_error { st with scanner := sc } e))
          (ih _ _ h)

theorem errInv_advance (fuel : Nat) (st st' : Parser)
    (h : st.advance fuel = some st') : ErrInv st st' := by
  unfold Parser.advance at h
  have h2 := errInv_advanceGo fuel _ _ h
  exact errInv_trans (errInv_same rfl rfl) h2

theorem errInv_consume (fuel : Nat) (st st' : Parser) (ty : TokenType)
    (msg : String) (h : st.consume fuel ty msg = some st') : ErrInv st st' := by
  unfold Parser.consume at h
  split at h
  · exact errInv_advance fuel st st' h
  · rw [← Option.some.inj h]
    exact errInv_error_at st st.current msg

theorem errInv_parser_mutual (fuel : Nat) :
    (∀ prec st st', parse_precedence fuel prec st = some st' → ErrInv st st') ∧
    (∀ prec st st', binLoop fuel prec st = some st' → ErrInv st st') ∧
    (∀ st st', grouping fuel st = some st' → ErrInv st st') ∧
    (∀ st st', unary fuel st = some st' → ErrInv st st') ∧
    (∀ st st', binary fuel st = some st' → ErrInv st st') := by
  induction fuel with
  | zero =>
    refine ⟨?_, ?_, ?_, ?_, ?_⟩ <;> intros <;>
      simp_all [parse_precedence, binLoop, grouping, unary, binary]
  | succ fuel ih =>
    obtain ⟨ipp, ibl, igr, iun, ibin⟩ := ih
    have hpp : ∀ prec st st', parse_precedence (fuel + 1) prec st = some st' →
        ErrInv st st' := by
      intro prec st st' h
      simp only [parse_precedence] at h
      cases hadv : st.advance fuel with
      | none => rw [hadv] at h; exact absurd h (by simp)
      | some s1 =>
        rw [hadv] at h
        simp only [Option.bind_eq_bind, Option.some_bind] at h
        have base := errInv_advance fuel st s1 hadv
        split at h
        · cases hg : grouping fuel s1 with
          | none => rw [hg] at h; exact absurd h (by simp)
          | some s2 =>
            rw [hg] at h
            simp only [Option.bind_eq_bind, Option.some_bind] at h
            exact errInv_trans base (errInv_trans (igr s1 s2 hg) (ibl _ s2 st' h))
        · cases hu : unary fuel s1 with
          | none => rw [hu] at h; exact absurd h (by simp)
          | some s2 =>
            rw [hu] at h
            simp only [Option.bind_eq_bind, Option.some_bind] at h
            exact errInv_trans base (errInv_trans (iun s1 s2 hu) (ibl _ s2 st' h))
        · cases hu : unary fuel s1 with
          | none => rw [hu] at h; exact absurd h (by simp)
          | some s2 =>
            rw [hu] at h
            simp only [Option.bind_eq_bind, Option.some_bind] at h
            exact errInv_trans base (errInv_trans (iun s1 s2 hu) (ibl _ s2 st' h))
        · exact errInv_trans base
            (errInv_trans (errInv_number s1) (ibl _ _ st' h))
        · exact errInv_trans base
            (errInv_trans (errInv_literal s1) (ibl _ _ st' h))
        · exact errInv_trans base
            (errInv_trans (errInv_literal s1) (ibl _ _ st' h))
        · exact errInv_trans base
            (errInv_trans (errInv_literal s1) (ibl _ _ st' h))
        · rw [← Option.some.inj h]
          exact errInv_trans base (errInv_perror s1 "expect expression")
    refine ⟨hpp, ?_, ?_, ?_, ?_⟩
    · intro prec st st' h
      simp only [binLoop] at h
      split at h
      · cases hadv : st.advance fuel with
        | none => rw [hadv] at h; exact absurd h (by simp)
        | some s1 =>
          rw [hadv] at h
          simp only [Option.bind_eq_bind, Option.some_bind] at h
          cases hb : binary fuel s1 with
          | none => rw [hb] at h; exact absurd h (by simp)
          | some s2 =>
            rw [hb] at h
            simp only [Option.bind_eq_bind, Option.some_bind] at h
            exact errInv_trans (errInv_advance fuel st s1 hadv)
              (errInv_trans (ibin s1 s2 hb) (ibl prec s2 st' h))
      · rw [← Option.some.inj h]
        exact errInv_refl st
    · intro st st' h
      simp only [grouping] at h
      cases hp : parse_precedence fuel Prec.Assignment st with
      | none => rw [hp] at h; exact absurd h (by simp)
      | some s1 =>
        rw [hp] at h
        simp only [Option.bind_eq_bind, Option.some_bind] at h
        exact errInv_trans (ipp _ st s1 hp)
          (errInv_consume fuel s1 st' TokenType.RightParen _ h)
    · intro st st' h
      simp only [unary] at h
      cases hp : parse_precedence fuel Prec.Unary st with
      | none => rw [hp] at h; exact absurd h (by simp)
      | some s1 =>
        rw [hp] at h
        simp only [Option.bind_eq_bind, Option.some_bind] at h
        have base := ipp _ st s1 hp
        split at h <;>
          first
            | (rw [← Option.some.inj h]; exact errInv_trans base (errInv_emit_op s1 _))
            | exact absurd h (by simp)
    · intro st st' h
      simp only [binary] at h
      cases hp : parse_precedence fuel (Prec.for_op_type st.previous.ty).next st with
      | none => rw [hp] at h; exact absurd h (by simp)
      | some s1 =>
        rw [hp] at h
        simp only [Option.bind_eq_bind, Option.some_bind] at h
        have base := ipp _ st s1 hp
        split at h <;>
          first
            | (rw [← Option.some.inj h];
               exact errInv_trans base
                 (errInv_trans (errInv_emit_op s1 _) (errInv_emit_op _ _)))
            | (rw [← Option.some.inj h]; exact errInv_trans base (errInv_emit_op s1 _))
            | exact absurd h (by simp)

/-- C3, amended: panic mode suppresses every report after the first — a
compilation unit reports at most one error location (so a unit with two
syntax errors on different lines reports only the first) — while
`had_error` still gates execution: a chunk compiled with any error is
discarded, the VM is untouched and nothing is printed. -/
theorem parse_reports_at_most_one (fuel : Nat) (src : List Nat) (vm : Vm)
    (st' : Parser) (vm' : Vm) (out : List String) (ok : Bool)
    (h : Parser.parse fuel (Parser.new src) vm = some (st', vm', out, ok)) :
    st'.reports.length ≤ 1 ∧
    (st'.had_error = true → vm' = vm ∧ out = [] ∧ ok = false) := by
  simp only [Parser.parse] at h
  cases hadv : Parser.advance fuel (Parser.new src).pushChunk with
  | none => rw [hadv] at h; exact absurd h (by simp)
  | some s1 =>
    rw [hadv] at h
    simp only [Option.bind_eq_bind, Option.some_bind] at h
    cases hexp : s1.expression fuel with
    | none => rw [hexp] at h; exact absurd h (by simp)
    | some s2 =>
      rw [hexp] at h
      simp only [Option.bind_eq_bind, Option.some_bind] at h
      cases hcon : s2.consume fuel TokenType.Eof "expect end of expression" with
      | none => rw [hcon] at h; exact absurd h (by simp)
      | some s3 =>
        rw [hcon] at h
        simp only [Option.bind_eq_bind, Option.some_bind] at h
        have inv : ErrInv (Parser.new src) (s3.emit_op Op.Return) :=
          errInv_trans (errInv_pushChunk (Parser.new src))
            (errInv_trans (errInv_advance fuel _ s1 hadv)
              (errInv_trans
                ((errInv_parser_mutual fuel).1 Prec.Assignment s1 s2 hexp)
                (errInv_trans
                  (errInv_consume fuel s2 s3 TokenType.Eof _ hcon)
                  (errInv_emit_op s3 Op.Return))))
        have hbound : (s3.emit_op Op.Return).reports.length ≤ 1 := by
          have := inv.2.1
          simpa [Parser.new] using this
        cases hhe : (s3.emit_op Op.Return).had_error with
        | true =>
          rw [if_pos (by rw [hhe])] at h
          replace h := Option.some.inj h
          simp only [Prod.mk.injEq] at h
          obtain ⟨h1, h2, h3, h4⟩ := h
          subst h1 h2 h3
          refine ⟨hbound, fun _ => ⟨rfl, rfl, ?_⟩⟩
          rw [← h4, hhe]
          rfl
        | false =>
          rw [if_neg (by rw [hhe]; simp)] at h
          cases hrun : vm.run (s3.emit_op Op.Return).chunk0 with
          | none => rw [hrun] at h; exact absurd h (by simp)
          | some r =>
            rw [hrun] at h
            obtain ⟨vm2, out2, res⟩ := r
            cases res with
            | none =>
              replace h := Option.some.inj h
              simp only [Prod.mk.injEq] at h
              obtain ⟨h1, h2, h3, h4⟩ := h
              subst h1 h2 h3
              refine ⟨hbound, fun hcontra => ?_⟩
              rw [hhe] at hcontra
              exact absurd hcontra (by simp)
            | some e => exact absurd h (by simp)

/-- The result of compiling the two-error source `)\n)` (a syntax error on
each line). -/
def c3res : Parser × Vm × List String × Bool :=
  (Parser.parse 20 (Parser.new (srcBytes ")\n)")) Vm.init).getD
    (Parser.new [], Vm.init, [], false)

set_option maxHeartbeats 4000000 in
/-- C3 witness: on the two-error source `)\n)` the compiler reports at most
one location, and the erroneous chunk is never executed. -/
theorem parse_reports_at_most_one_witness :
    c3res.1.reports.length ≤ 1 ∧
    (c3res.1.had_error = true →
      c3res.2.1 = Vm.init ∧ c3res.2.2.1 = [] ∧ c3res.2.2.2 = false) :=
  parse_reports_at_most_one 20 (srcBytes ")\n)") Vm.init c3res.1 c3res.2.1
    c3res.2.2.1 c3res.2.2.2 (by decide)

set_option maxHeartbeats 4000000 in
/-- C3, counterexample: the source `)\n)` raises "expect expression" at
`)` on line 1 and "expect end of expression" at `)` on line 2, yet only the
first location is reported (panic mode swallows the second): the report
list has exactly one entry, not two.  The chunk is still discarded — the VM
is untouched and nothing prints. -/
theorem two_errors_one_report :
    (Parser.parse 20 (Parser.new (srcBytes ")\n)")) Vm.init).map
        (fun r => (r.1.reports, r.2.1, r.2.2.1, r.2.2.2)) =
      some (["[line 1] Error at " ++ sq ++ ")" ++ sq ++ ": expect expression"],
        Vm.init, [], false) ∧
    ¬ (2 ≤ (((Parser.parse 20 (Parser.new (srcBytes ")\n)")) Vm.init).map
        (fun r => r.1.reports)).getD []).length) := by
  refine ⟨by decide, by decide⟩

end RLox
